import Mathlib

/-!
Verification of the shared-ownership control block of `assist_tool`.

The source file `src/project/tasks/example/example.hpp` defines
`DerivedControlBlock`: a single counter `count` of C++ type `int`
(32-bit two's complement), initialized to `1`, with the operations
`Increment` (`count++`), `Decrement` (`count--`) and `GetCount`
(`return count;`).  The spec generalizes this stub to a control block
with a strong and a weak counter, value teardown on the strong count's
`1 → 0` transition, and a `TryUpgrade` operation; those parts have no
implementation under `src/` and are modelled from the spec's words where
a claim needs them.
-/

namespace AssistTool

/-- Smallest value of a 32-bit two's-complement `int`, i.e. `-(2^31)`. -/
def INT_MIN : Int := -2147483648

/-- Largest value of a 32-bit two's-complement `int`, i.e. `2^31 - 1`. -/
def INT_MAX : Int := 2147483647

/-- Two's-complement wrap of a mathematical integer into the range of a
32-bit `int`: the result is congruent to `x` modulo `2^32` and lies in
`[INT_MIN, INT_MAX]`.  This is the standard shallow embedding of the
source's arithmetic on the `int` member `count`. -/
def wrap32 (x : Int) : Int := (x + 2147483648) % 4294967296 - 2147483648

/-- `DerivedControlBlock` from the source: a single reference counter
`count` of C++ type `int`. -/
structure DerivedControlBlock where
  count : Int
deriving DecidableEq

/-- The source's constructor `DerivedControlBlock() : count(1) {}`. -/
def DerivedControlBlock.new : DerivedControlBlock := ⟨1⟩

/-- The source's `Increment`: `count++` on a 32-bit `int`. -/
def DerivedControlBlock.Increment (b : DerivedControlBlock) : DerivedControlBlock :=
  ⟨wrap32 (b.count + 1)⟩

/-- The source's `Decrement`: `count--` on a 32-bit `int`. -/
def DerivedControlBlock.Decrement (b : DerivedControlBlock) : DerivedControlBlock :=
  ⟨wrap32 (b.count - 1)⟩

/-- The source's `GetCount`: `return count;`. -/
def DerivedControlBlock.GetCount (b : DerivedControlBlock) : Int := b.count

/-- The three operations of the source's `DerivedControlBlock`, as events
of an operation sequence.  `getCount` is the read `GetCount`. -/
inductive DOp where
  | increment
  | decrement
  | getCount
deriving DecidableEq

/-- State transition of one source operation: `Increment` and `Decrement`
mutate `count`; `GetCount` only reads it (`return count;`), so its state
transition is the identity. -/
def applyD (op : DOp) (b : DerivedControlBlock) : DerivedControlBlock :=
  match op with
  | .increment => b.Increment
  | .decrement => b.Decrement
  | .getCount => b

/-- Run a sequence of source operations from a given block state. -/
def runD (b : DerivedControlBlock) (ops : List DOp) : DerivedControlBlock :=
  ops.foldl (fun s op => applyD op s) b

/-- Modelled from the spec: the source contains only the single-counter
`DerivedControlBlock` above; the spec's `weak_count`, the teardown of the
managed value, and `TryUpgrade` have no implementation under `src/`.
`strong` mirrors the source's `count` (a 32-bit `int` initialized to `1`,
moved by the source's `Increment`/`Decrement`); `weak` and `teardowns`
follow the spec's words: `weak_count = 0` at creation, `ReleaseStrong`
runs the managed value's teardown exactly when its post-decrement value
is `0`, and `TryUpgrade` checks `strong_count > 0` and increments it in
the same step, failing otherwise.  `teardowns` counts how many times the
managed value's teardown has been run. -/
structure ControlBlock where
  strong : Int
  weak : Int
  teardowns : Nat
deriving DecidableEq

/-- A freshly created control block: `strong_count = 1, weak_count = 0`
(mirroring the source's `count(1)` initialization), teardown not yet run. -/
def ControlBlock.new : ControlBlock := ⟨1, 0, 0⟩

/-- `AcquireStrong`: atomically increments `strong_count` (the source's
`Increment` on the 32-bit counter); no other field is touched. -/
def AcquireStrong (b : ControlBlock) : ControlBlock :=
  { b with strong := wrap32 (b.strong + 1) }

/-- `ReleaseStrong`: decrements `strong_count` (the source's `Decrement`);
modelled from the spec, the managed value's teardown runs exactly when the
post-decrement value is `0`. -/
def ReleaseStrong (b : ControlBlock) : ControlBlock :=
  { b with
    strong := wrap32 (b.strong - 1),
    teardowns := if wrap32 (b.strong - 1) = 0 then b.teardowns + 1 else b.teardowns }

/-- Modelled from the spec: `AcquireWeak` increments `weak_count`. -/
def AcquireWeak (b : ControlBlock) : ControlBlock :=
  { b with weak := wrap32 (b.weak + 1) }

/-- Modelled from the spec: `ReleaseWeak` decrements `weak_count`. -/
def ReleaseWeak (b : ControlBlock) : ControlBlock :=
  { b with weak := wrap32 (b.weak - 1) }

/-- Modelled from the spec: `TryUpgrade` checks `strong_count > 0` and, if
so, increments it in the same atomic step and reports success; otherwise it
fails and leaves the block unchanged. -/
def TryUpgrade (b : ControlBlock) : Bool × ControlBlock :=
  if 0 < b.strong then (true, { b with strong := wrap32 (b.strong + 1) }) else (false, b)

/-- `GetStrongCount`: diagnostic read of `strong_count` (mirrors the
source's `GetCount`). -/
def GetStrongCount (b : ControlBlock) : Int := b.strong

/-- Modelled from the spec: `GetWeakCount` reads `weak_count`. -/
def GetWeakCount (b : ControlBlock) : Int := b.weak

/-- The operations of the generalized control block, as events of an
operation sequence. -/
inductive Op where
  | acquireStrong
  | releaseStrong
  | acquireWeak
  | releaseWeak
  | tryUpgrade
  | getStrongCount
  | getWeakCount
deriving DecidableEq

/-- State transition of one operation; the two reads leave the state
unchanged, `tryUpgrade` takes the state component of `TryUpgrade`. -/
def applyOp (op : Op) (b : ControlBlock) : ControlBlock :=
  match op with
  | .acquireStrong => AcquireStrong b
  | .releaseStrong => ReleaseStrong b
  | .acquireWeak => AcquireWeak b
  | .releaseWeak => ReleaseWeak b
  | .tryUpgrade => (TryUpgrade b).2
  | .getStrongCount => b
  | .getWeakCount => b

/-- Run a sequence of operations from a given control-block state. -/
def run (b : ControlBlock) (ops : List Op) : ControlBlock :=
  ops.foldl (fun s op => applyOp op s) b

/-- The spec's caller contract for each operation: `AcquireStrong` only
while the caller holds a strong reference (`strong_count ≥ 1`) and the
counter does not overflow; `ReleaseStrong` only while a strong reference
is held; `ReleaseWeak` only while a weak reference is held; `AcquireWeak`,
`TryUpgrade` and the two reads any time (the increments also bounded by
`INT_MAX` so the 32-bit counter does not overflow). -/
def preB (b : ControlBlock) : Op → Bool
  | .acquireStrong => decide (1 ≤ b.strong) && decide (b.strong < INT_MAX)
  | .releaseStrong => decide (1 ≤ b.strong)
  | .acquireWeak => decide (b.weak < INT_MAX)
  | .releaseWeak => decide (1 ≤ b.weak)
  | .tryUpgrade => decide (b.strong < INT_MAX)
  | .getStrongCount => true
  | .getWeakCount => true

/-- A sequence of operations respects the caller contract when each
operation's precondition holds in the state in which it is invoked. -/
def validSeqB (b : ControlBlock) : List Op → Bool
  | [] => true
  | op :: rest => preB b op && validSeqB (applyOp op b) rest

/-- The invariant that the caller contract maintains: the strong counter
stays inside `[0, INT_MAX]`, and the managed value's teardown has run
exactly once when the counter is `0` and not at all while it is positive. -/
def GoodState (b : ControlBlock) : Prop :=
  0 ≤ b.strong ∧ b.strong ≤ INT_MAX ∧
    ((0 < b.strong ∧ b.teardowns = 0) ∨ (b.strong = 0 ∧ b.teardowns = 1))

/-- An interleaving of `2^32` acquire-then-release pairs on one control
block: all `2^32` `AcquireStrong` calls first (each later matched by one
`ReleaseStrong`), then the `2^32` `ReleaseStrong` calls.  Large enough to
overflow the 32-bit strong counter. -/
def bigOps : List Op :=
  List.replicate 4294967296 Op.acquireStrong ++
    List.replicate 4294967296 Op.releaseStrong

/-- Model of the source's non-atomic `count++` as it executes on real
hardware: a load of `count` into a caller-local temporary followed by a
store of `temporary + 1`.  Two overlapping callers each have their own
temporary. -/
structure RacyBlock where
  count : Int
  temp1 : Int
  temp2 : Int
deriving DecidableEq

/-- One hardware step of one of the two overlapping `Increment` calls:
its load or its store. -/
inductive MicroStep where
  | load1
  | store1
  | load2
  | store2
deriving DecidableEq

/-- Effect of one hardware step on the shared counter and the two
caller-local temporaries. -/
def microStep (st : MicroStep) (b : RacyBlock) : RacyBlock :=
  match st with
  | .load1 => { b with temp1 := b.count }
  | .store1 => { b with count := wrap32 (b.temp1 + 1) }
  | .load2 => { b with temp2 := b.count }
  | .store2 => { b with count := wrap32 (b.temp2 + 1) }

/-- Run an interleaving (schedule) of hardware steps of the two
overlapping `Increment` calls. -/
def runMicro (b : RacyBlock) (sched : List MicroStep) : RacyBlock :=
  sched.foldl (fun s m => microStep m s) b

end AssistTool

namespace AssistTool

theorem wrap32_eq_self {x : Int} (h1 : INT_MIN ≤ x) (h2 : x ≤ INT_MAX) : wrap32 x = x := by
  simp only [wrap32, INT_MIN, INT_MAX] at *
  omega

theorem wrap32_wrap32_add (x y : Int) : wrap32 (wrap32 x + y) = wrap32 (x + y) := by
  simp only [wrap32]
  omega

theorem run_nil (b : ControlBlock) : run b [] = b := rfl

theorem run_cons (b : ControlBlock) (op : Op) (ops : List Op) :
    run b (op :: ops) = run (applyOp op b) ops := rfl

theorem run_append (b : ControlBlock) (l1 l2 : List Op) :
    run b (l1 ++ l2) = run (run b l1) l2 := by
  simp [run, List.foldl_append]

theorem validSeqB_cons (b : ControlBlock) (op : Op) (ops : List Op) :
    validSeqB b (op :: ops) = true ↔
      (preB b op = true ∧ validSeqB (applyOp op b) ops = true) := by
  simp [validSeqB]

theorem validSeqB_append (b : ControlBlock) (l1 l2 : List Op) :
    validSeqB b (l1 ++ l2) = true ↔
      (validSeqB b l1 = true ∧ validSeqB (run b l1) l2 = true) := by
  induction l1 generalizing b with
  | nil => simp [validSeqB, run_nil]
  | cons op rest ih =>
    simp only [List.cons_append, validSeqB_cons, run_cons, ih]
    tauto

theorem goodState_new : GoodState ControlBlock.new := by
  refine ⟨by decide, by decide, Or.inl ⟨by decide, rfl⟩⟩

theorem goodState_applyOp {b : ControlBlock} (op : Op)
    (hg : GoodState b) (hp : preB b op = true) : GoodState (applyOp op b) := by
  obtain ⟨h0, h1, hd⟩ := hg
  simp only [INT_MAX] at h1
  cases op with
  | acquireStrong =>
    simp only [preB, Bool.and_eq_true, decide_eq_true_eq, INT_MAX] at hp
    obtain ⟨hp1, hp2⟩ := hp
    have hw : wrap32 (b.strong + 1) = b.strong + 1 :=
      wrap32_eq_self (by simp only [INT_MIN]; omega) (by simp only [INT_MAX]; omega)
    have ht : b.teardowns = 0 := by
      rcases hd with ⟨_, ht⟩ | ⟨hz, _⟩
      · exact ht
      · omega
    refine ⟨?_, ?_, Or.inl ⟨?_, ?_⟩⟩
    · show 0 ≤ wrap32 (b.strong + 1)
      rw [hw]; omega
    · show wrap32 (b.strong + 1) ≤ INT_MAX
      rw [hw]; simp only [INT_MAX]; omega
    · show 0 < wrap32 (b.strong + 1)
      rw [hw]; omega
    · exact ht
  | releaseStrong =>
    simp only [preB, decide_eq_true_eq] at hp
    have hw : wrap32 (b.strong - 1) = b.strong - 1 :=
      wrap32_eq_self (by simp only [INT_MIN]; omega) (by simp only [INT_MAX]; omega)
    have ht : b.teardowns = 0 := by
      rcases hd with ⟨_, ht⟩ | ⟨hz, _⟩
      · exact ht
      · omega
    refine ⟨?_, ?_, ?_⟩
    · show 0 ≤ wrap32 (b.strong - 1)
      rw [hw]; omega
    · show wrap32 (b.strong - 1) ≤ INT_MAX
      rw [hw]; simp only [INT_MAX]; omega
    · by_cases hz : b.strong - 1 = 0
      · refine Or.inr ⟨?_, ?_⟩
        · show wrap32 (b.strong - 1) = 0
          rw [hw]; omega
        · show (if wrap32 (b.strong - 1) = 0 then b.teardowns + 1 else b.teardowns) = 1
          rw [hw, if_pos hz, ht]
      · refine Or.inl ⟨?_, ?_⟩
        · show 0 < wrap32 (b.strong - 1)
          rw [hw]; omega
        · show (if wrap32 (b.strong - 1) = 0 then b.teardowns + 1 else b.teardowns) = 0
          rw [hw, if_neg hz, ht]
  | acquireWeak => exact ⟨h0, by simpa [INT_MAX] using h1, hd⟩
  | releaseWeak => exact ⟨h0, by simpa [INT_MAX] using h1, hd⟩
  | tryUpgrade =>
    simp only [preB, decide_eq_true_eq, INT_MAX] at hp
    by_cases hs : 0 < b.strong
    · have hw : wrap32 (b.strong + 1) = b.strong + 1 :=
        wrap32_eq_self (by simp only [INT_MIN]; omega) (by simp only [INT_MAX]; omega)
      have ht : b.teardowns = 0 := by
        rcases hd with ⟨_, ht⟩ | ⟨hz, _⟩
        · exact ht
        · omega
      simp only [applyOp, TryUpgrade, if_pos hs]
      refine ⟨?_, ?_, Or.inl ⟨?_, ?_⟩⟩
      · show 0 ≤ wrap32 (b.strong + 1)
        rw [hw]; omega
      · show wrap32 (b.strong + 1) ≤ INT_MAX
        rw [hw]; simp only [INT_MAX]; omega
      · show 0 < wrap32 (b.strong + 1)
        rw [hw]; omega
      · exact ht
    · simp only [applyOp, TryUpgrade, if_neg hs]
      exact ⟨h0, by simpa [INT_MAX] using h1, hd⟩
  | getStrongCount => exact ⟨h0, by simpa [INT_MAX] using h1, hd⟩
  | getWeakCount => exact ⟨h0, by simpa [INT_MAX] using h1, hd⟩

theorem goodState_run {b : ControlBlock} {ops : List Op}
    (hg : GoodState b) (hv : validSeqB b ops = true) : GoodState (run b ops) := by
  induction ops generalizing b with
  | nil => exact hg
  | cons op rest ih =>
    rw [validSeqB_cons] at hv
    rw [run_cons]
    exact ih (goodState_applyOp op hg hv.1) hv.2

/-- Once the strong counter is `0`, any operation whose precondition holds
there leaves the strong counter at `0` and does not run the teardown. -/
theorem zero_applyOp {b : ControlBlock} (op : Op)
    (hz : b.strong = 0) (hp : preB b op = true) :
    (applyOp op b).strong = 0 ∧ (applyOp op b).teardowns = b.teardowns := by
  cases op with
  | acquireStrong =>
    simp only [preB, Bool.and_eq_true, decide_eq_true_eq] at hp
    omega
  | releaseStrong =>
    simp only [preB, decide_eq_true_eq] at hp
    omega
  | acquireWeak => exact ⟨hz, rfl⟩
  | releaseWeak => exact ⟨hz, rfl⟩
  | tryUpgrade =>
    have hns : ¬ (0 < b.strong) := by omega
    simp only [applyOp, TryUpgrade, if_neg hns]
    exact ⟨hz, by trivial⟩
  | getStrongCount => exact ⟨hz, rfl⟩
  | getWeakCount => exact ⟨hz, rfl⟩

theorem zero_run {b : ControlBlock} {ops : List Op}
    (hz : b.strong = 0) (hv : validSeqB b ops = true) :
    (run b ops).strong = 0 ∧ (run b ops).teardowns = b.teardowns := by
  induction ops generalizing b with
  | nil => exact ⟨hz, rfl⟩
  | cons op rest ih =>
    rw [validSeqB_cons] at hv
    rw [run_cons]
    obtain ⟨hz', ht'⟩ := zero_applyOp op hz hv.1
    obtain ⟨hz'', ht''⟩ := ih hz' hv.2
    exact ⟨hz'', ht''.trans ht'⟩

/-- One step changes the teardown tally exactly when it is a
`ReleaseStrong` whose post-decrement strong count is `0`. -/
theorem teardown_step_iff (op : Op) (b : ControlBlock) :
    (applyOp op b).teardowns = b.teardowns + 1 ↔
      (op = Op.releaseStrong ∧ (applyOp op b).strong = 0) := by
  cases op with
  | releaseStrong =>
    simp only [applyOp, ReleaseStrong, true_and]
    by_cases hz : wrap32 (b.strong - 1) = 0
    · simp [hz]
    · simp [hz]
  | acquireStrong =>
    simp only [applyOp, AcquireStrong]
    constructor
    · intro h; omega
    · rintro ⟨h, -⟩; exact absurd h (by simp)
  | acquireWeak =>
    simp only [applyOp, AcquireWeak]
    constructor
    · intro h; omega
    · rintro ⟨h, -⟩; exact absurd h (by simp)
  | releaseWeak =>
    simp only [applyOp, ReleaseWeak]
    constructor
    · intro h; omega
    · rintro ⟨h, -⟩; exact absurd h (by simp)
  | tryUpgrade =>
    simp only [applyOp, TryUpgrade]
    by_cases hs : 0 < b.strong <;> simp only [if_pos, if_neg, hs, ite_true, ite_false]
    · constructor
      · intro h; omega
      · rintro ⟨h, -⟩; exact absurd h (by simp)
    · constructor
      · intro h; omega
      · rintro ⟨h, -⟩; exact absurd h (by simp)
  | getStrongCount =>
    simp only [applyOp]
    constructor
    · intro h; omega
    · rintro ⟨h, -⟩; exact absurd h (by simp)
  | getWeakCount =>
    simp only [applyOp]
    constructor
    · intro h; omega
    · rintro ⟨h, -⟩; exact absurd h (by simp)

/-- C5: a freshly constructed control block has `strong_count = 1` and
`weak_count = 0`: the source's `GetCount` returns `1` right after
construction, and the generalized reads return `1` and `0`. -/
theorem c5_fresh_block_counts :
    DerivedControlBlock.new.GetCount = 1 ∧
    GetStrongCount ControlBlock.new = 1 ∧ GetWeakCount ControlBlock.new = 0 := by
  refine ⟨rfl, rfl, rfl⟩

/-- C7 (claim is right, the code is wrong): the source's `count++` and
`count--` are non-atomic read-modify-write sequences on a plain `int`, so
two overlapping `Increment` calls whose loads both happen before either
store lose one increment: from `count = 1` the racy interleaving ends at
`count = 2`, while two sequential (atomic) `Increment` calls end at `3`. -/
theorem c7_nonatomic_increment_loses_update :
    (runMicro ⟨1, 0, 0⟩
        [MicroStep.load1, MicroStep.load2, MicroStep.store1, MicroStep.store2]).count = 2 ∧
    (DerivedControlBlock.new.Increment.Increment).GetCount = 3 ∧ (2 : Int) ≠ 3 := by
  refine ⟨by decide, by decide, by decide⟩

/-- C8: the counter operations are total functions of the control-block
state: on every state whatsoever, `AcquireStrong` succeeds and increments
the strong counter, touching nothing else; `ReleaseStrong` decrements it
and never touches the weak counter; `GetStrongCount` returns the counter.
There is no error or failure branch in any of them. -/
theorem c8_counter_ops_total (b : ControlBlock) :
    (AcquireStrong b).strong = wrap32 (b.strong + 1) ∧
    (AcquireStrong b).weak = b.weak ∧
    (AcquireStrong b).teardowns = b.teardowns ∧
    (ReleaseStrong b).strong = wrap32 (b.strong - 1) ∧
    (ReleaseStrong b).weak = b.weak ∧
    GetStrongCount b = b.strong := by
  refine ⟨rfl, rfl, rfl, rfl, rfl, rfl⟩

/-- C9: `GetCount` is a pure observer: it returns the current counter and
its state transition is the identity, so inserting a `GetCount` call at
any position of any operation sequence leaves the run's result unchanged. -/
theorem c9_getcount_pure (b : DerivedControlBlock) (p q : List DOp) :
    b.GetCount = b.count ∧
    runD b (p ++ DOp.getCount :: q) = runD b (p ++ q) := by
  constructor
  · rfl
  · simp only [runD, List.foldl_append, List.foldl_cons]
    rfl

/-- C1 counterexample: the claim quantifies over every sequence of
`AcquireStrong`/`ReleaseStrong` calls, but after the sequence consisting
of a single `AcquireStrong` the managed value's teardown has run zero
times, not exactly once. -/
theorem c1_counterexample :
    (run ControlBlock.new [Op.acquireStrong]).teardowns = 0 := by decide

/-- C1 (amended): for every sequence of `AcquireStrong`/`ReleaseStrong`
calls on a fresh control block in which every call respects its
precondition (the caller holds a strong reference, so `strong_count ≥ 1`
at the call, and the counter does not overflow), the teardown is run
exactly once if the sequence drives `strong_count` to `0` and not at all
otherwise; moreover a step runs the teardown exactly when it is a
`ReleaseStrong` whose post-decrement value of `strong_count` is `0`. -/
theorem c1_teardown_exactly_once (ops : List Op)
    (_hAR : ops.all (fun op => op == Op.acquireStrong || op == Op.releaseStrong) = true)
    (hv : validSeqB ControlBlock.new ops = true) :
    (run ControlBlock.new ops).teardowns =
      (if (run ControlBlock.new ops).strong = 0 then 1 else 0) ∧
    (∀ p op q, ops = p ++ op :: q →
      ((run ControlBlock.new (p ++ [op])).teardowns =
          (run ControlBlock.new p).teardowns + 1 ↔
        (op = Op.releaseStrong ∧ (run ControlBlock.new (p ++ [op])).strong = 0))) := by
  constructor
  · obtain ⟨h0, h1, hd⟩ := goodState_run goodState_new hv
    rcases hd with ⟨hp, ht⟩ | ⟨hz, ht⟩
    · rw [ht, if_neg (by omega)]
    · rw [ht, if_pos hz]
  · intro p op q hpq
    have hstep : run ControlBlock.new (p ++ [op]) = applyOp op (run ControlBlock.new p) := by
      rw [run_append]; rfl
    rw [hstep]
    exact teardown_step_iff op (run ControlBlock.new p)

/-- Witness for C1 at the concrete sequence `AcquireStrong`,
`ReleaseStrong`, `ReleaseStrong`: the hypotheses hold, the final strong
count is `0`, and the teardown ran exactly once. -/
theorem c1_teardown_exactly_once_witness :
    ([Op.acquireStrong, Op.releaseStrong, Op.releaseStrong].all
        (fun op => op == Op.acquireStrong || op == Op.releaseStrong) = true) ∧
    validSeqB ControlBlock.new
      [Op.acquireStrong, Op.releaseStrong, Op.releaseStrong] = true ∧
    ((run ControlBlock.new [Op.acquireStrong, Op.releaseStrong, Op.releaseStrong]).teardowns =
      (if (run ControlBlock.new
            [Op.acquireStrong, Op.releaseStrong, Op.releaseStrong]).strong = 0
        then 1 else 0) ∧
    (∀ p op q,
        [Op.acquireStrong, Op.releaseStrong, Op.releaseStrong] = p ++ op :: q →
      ((run ControlBlock.new (p ++ [op])).teardowns =
          (run ControlBlock.new p).teardowns + 1 ↔
        (op = Op.releaseStrong ∧ (run ControlBlock.new (p ++ [op])).strong = 0)))) :=
  ⟨by decide, by decide, c1_teardown_exactly_once _ (by decide) (by decide)⟩

/-- C2 counterexample: the claim quantifies over every sequence of
operations, but two `ReleaseStrong` calls on a fresh block (a double
release, which the code does nothing to prevent) leave
`strong_count = -1 < 0`. -/
theorem c2_counterexample :
    (run ControlBlock.new [Op.releaseStrong, Op.releaseStrong]).strong = -1 := by decide

/-- C2 (amended): `strong_count ≥ 0` holds in the initial state
(`strong_count = 1`) and at every point of every sequence of operations
in which each operation is invoked with its precondition satisfied (in
particular `ReleaseStrong` only while `strong_count ≥ 1`, and
`AcquireStrong` only while `1 ≤ strong_count < INT_MAX`). -/
theorem c2_strong_nonneg (ops p q : List Op) (h : ops = p ++ q)
    (hv : validSeqB ControlBlock.new ops = true) :
    0 ≤ (run ControlBlock.new p).strong := by
  subst h
  exact (goodState_run goodState_new ((validSeqB_append _ _ _).1 hv).1).1

/-- Witness for C2 at the concrete sequence consisting of one
`ReleaseStrong`: the hypotheses hold and the strong count stays `≥ 0`. -/
theorem c2_strong_nonneg_witness :
    ([Op.releaseStrong] = [Op.releaseStrong] ++ ([] : List Op)) ∧
    validSeqB ControlBlock.new [Op.releaseStrong] = true ∧
    0 ≤ (run ControlBlock.new [Op.releaseStrong]).strong :=
  ⟨by decide, by decide,
    c2_strong_nonneg [Op.releaseStrong] [Op.releaseStrong] []
      (by decide) (by decide)⟩

/-- C3 counterexample: the claim quantifies over every sequence of
operations, but after `ReleaseStrong` has brought `strong_count` to `0`,
a further `AcquireStrong` (which the code's unconditional `Increment`
does nothing to prevent) makes it positive again. -/
theorem c3_counterexample :
    (run ControlBlock.new [Op.releaseStrong]).strong = 0 ∧
    0 < (run ControlBlock.new [Op.releaseStrong, Op.acquireStrong]).strong := by
  refine ⟨by decide, by decide⟩

/-- C3 (amended): for every sequence of operations in which each
operation is invoked with its precondition satisfied (`AcquireStrong`
requires a held strong reference, i.e. `strong_count ≥ 1`, so it cannot
be called once the count has reached `0`), once `strong_count` has
reached `0` it remains `0` — in particular it is never positive — at
every later point of the sequence. -/
theorem c3_no_resurrection (ops p q r : List Op) (h : ops = p ++ q ++ r)
    (hv : validSeqB ControlBlock.new ops = true)
    (h0 : (run ControlBlock.new p).strong = 0) :
    (run ControlBlock.new (p ++ q)).strong = 0 := by
  subst h
  have h1 : validSeqB ControlBlock.new (p ++ q) = true :=
    ((validSeqB_append _ _ _).1 hv).1
  have h2 : validSeqB (run ControlBlock.new p) q = true :=
    ((validSeqB_append _ _ _).1 h1).2
  rw [run_append]
  exact (zero_run h0 h2).1

/-- Witness for C3 at the concrete sequence `ReleaseStrong`,
`GetStrongCount`: the count reaches `0` and is still `0` afterwards. -/
theorem c3_no_resurrection_witness :
    ([Op.releaseStrong, Op.getStrongCount] =
      [Op.releaseStrong] ++ [Op.getStrongCount] ++ ([] : List Op)) ∧
    validSeqB ControlBlock.new [Op.releaseStrong, Op.getStrongCount] = true ∧
    (run ControlBlock.new [Op.releaseStrong]).strong = 0 ∧
    (run ControlBlock.new ([Op.releaseStrong] ++ [Op.getStrongCount])).strong = 0 :=
  ⟨by decide, by decide, by decide,
    c3_no_resurrection [Op.releaseStrong, Op.getStrongCount]
      [Op.releaseStrong] [Op.getStrongCount] [] (by decide) (by decide) (by decide)⟩

/-- C6 counterexample: the claim quantifies over every sequence of
operations, but after `ReleaseStrong` has driven `strong_count` to `0`,
an (unchecked) `AcquireStrong` makes the count positive again and the
subsequent `TryUpgrade` succeeds. -/
theorem c6_counterexample :
    (run ControlBlock.new [Op.releaseStrong]).strong = 0 ∧
    (TryUpgrade (run ControlBlock.new [Op.releaseStrong, Op.acquireStrong])).1 = true := by
  refine ⟨by decide, by decide⟩

/-- C6 (amended): `TryUpgrade` fails and leaves the block unchanged on
every state with `strong_count = 0`; and for every sequence of
operations in which each operation is invoked with its precondition
satisfied, once `ReleaseStrong` has driven `strong_count` to `0`, every
subsequent `TryUpgrade` fails. -/
theorem c6_tryupgrade_fails (ops p q r : List Op) (h : ops = p ++ q ++ r)
    (hv : validSeqB ControlBlock.new ops = true)
    (h0 : (run ControlBlock.new p).strong = 0) :
    (TryUpgrade (run ControlBlock.new (p ++ q))).1 = false ∧
    (∀ b : ControlBlock, b.strong = 0 →
      (TryUpgrade b).1 = false ∧ (TryUpgrade b).2 = b) := by
  constructor
  · have h1 : validSeqB ControlBlock.new (p ++ q) = true := by
      subst h; exact ((validSeqB_append _ _ _).1 hv).1
    have h2 : validSeqB (run ControlBlock.new p) q = true :=
      ((validSeqB_append _ _ _).1 h1).2
    have hz : (run ControlBlock.new (p ++ q)).strong = 0 := by
      rw [run_append]; exact (zero_run h0 h2).1
    have hns : ¬ (0 < (run ControlBlock.new (p ++ q)).strong) := by omega
    simp only [TryUpgrade, if_neg hns]
  · intro b hb
    have hns : ¬ (0 < b.strong) := by omega
    simp only [TryUpgrade, if_neg hns]
    exact ⟨by trivial, by trivial⟩

/-- Witness for C6 at the concrete sequence `ReleaseStrong`,
`TryUpgrade`: after the strong count reaches `0`, the upgrade fails. -/
theorem c6_tryupgrade_fails_witness :
    ([Op.releaseStrong, Op.tryUpgrade] =
      [Op.releaseStrong] ++ [Op.tryUpgrade] ++ ([] : List Op)) ∧
    validSeqB ControlBlock.new [Op.releaseStrong, Op.tryUpgrade] = true ∧
    (run ControlBlock.new [Op.releaseStrong]).strong = 0 ∧
    ((TryUpgrade (run ControlBlock.new ([Op.releaseStrong] ++ [Op.tryUpgrade]))).1 = false ∧
     (∀ b : ControlBlock, b.strong = 0 →
       (TryUpgrade b).1 = false ∧ (TryUpgrade b).2 = b)) :=
  ⟨by decide, by decide, by decide,
    c6_tryupgrade_fails [Op.releaseStrong, Op.tryUpgrade]
      [Op.releaseStrong] [Op.tryUpgrade] [] (by decide) (by decide) (by decide)⟩

/-- C10: the counter is a fixed-width signed machine integer, not an
unbounded integer: after `n` consecutive `Increment` calls on a fresh
block, `GetCount` returns the two's-complement value of `(1 + n) mod 2^32`
(that is `wrap32 (1 + n)`, where `wrap32 x = (x + 2^31) mod 2^32 - 2^31`);
in particular one `Increment` when the counter holds `INT_MAX` wraps it to
`INT_MIN`, and one `Decrement` when it holds `INT_MIN` wraps to `INT_MAX`. -/
theorem c10_counter_is_int32 (n : Nat) :
    (DerivedControlBlock.Increment^[n] DerivedControlBlock.new).GetCount =
      wrap32 (1 + n) ∧
    (DerivedControlBlock.Increment ⟨INT_MAX⟩).count = INT_MIN ∧
    (DerivedControlBlock.Decrement ⟨INT_MIN⟩).count = INT_MAX := by
  refine ⟨?_, by decide, by decide⟩
  induction n with
  | zero =>
    show (1 : Int) = wrap32 (1 + ((0 : Nat) : Int))
    decide
  | succ n ih =>
    rw [Function.iterate_succ_apply']
    show wrap32 ((DerivedControlBlock.Increment^[n] DerivedControlBlock.new).count + 1) = _
    have hc : (DerivedControlBlock.Increment^[n] DerivedControlBlock.new).count =
        wrap32 (1 + n) := ih
    rw [hc, wrap32_wrap32_add]
    have harg : (1 : Int) + (n : Int) + 1 = 1 + ((n + 1 : Nat) : Int) := by
      omega
    rw [harg]

theorem teardowns_le_applyOp (op : Op) (b : ControlBlock) :
    b.teardowns ≤ (applyOp op b).teardowns := by
  cases op with
  | acquireStrong => exact le_refl _
  | releaseStrong =>
    show b.teardowns ≤
      (if wrap32 (b.strong - 1) = 0 then b.teardowns + 1 else b.teardowns)
    split
    · omega
    · exact le_refl _
  | acquireWeak => exact le_refl _
  | releaseWeak => exact le_refl _
  | tryUpgrade =>
    show b.teardowns ≤ ((TryUpgrade b).2).teardowns
    rw [TryUpgrade]
    split
    · exact le_refl _
    · exact le_refl _
  | getStrongCount => exact le_refl _
  | getWeakCount => exact le_refl _

theorem teardowns_le_run (b : ControlBlock) (ops : List Op) :
    b.teardowns ≤ (run b ops).teardowns := by
  induction ops generalizing b with
  | nil => exact le_refl _
  | cons op rest ih =>
    rw [run_cons]
    exact le_trans (teardowns_le_applyOp op b) (ih (applyOp op b))

/-- Running `n` consecutive `AcquireStrong` calls adds `n` to the strong
counter modulo `2^32` and touches nothing else. -/
theorem run_replicate_acquire (n : Nat) (b : ControlBlock)
    (hb : wrap32 b.strong = b.strong) :
    run b (List.replicate n Op.acquireStrong) =
      { b with strong := wrap32 (b.strong + n) } := by
  induction n generalizing b with
  | zero =>
    rw [List.replicate, run_nil]
    show b = { b with strong := wrap32 (b.strong + ((0 : Nat) : Int)) }
    rw [show ((0 : Nat) : Int) = 0 from rfl, add_zero, hb]
  | succ n ih =>
    rw [List.replicate_succ, run_cons]
    have hb' : wrap32 (AcquireStrong b).strong = (AcquireStrong b).strong := by
      show wrap32 (wrap32 (b.strong + 1)) = wrap32 (b.strong + 1)
      have := wrap32_wrap32_add (b.strong + 1) 0
      rwa [add_zero, add_zero] at this
    rw [show applyOp Op.acquireStrong b = AcquireStrong b from rfl, ih _ hb']
    show ({ b with strong := wrap32 (wrap32 (b.strong + 1) + n) } : ControlBlock) = _
    rw [wrap32_wrap32_add]
    congr 1
    push_cast
    ring_nf

/-- Running a sequence of `AcquireStrong`/`ReleaseStrong` calls whose
running net count keeps the strong counter inside `[1, INT_MAX]` simply
adds the net count to the strong counter, with no teardown and no change
to the weak counter. -/
theorem run_balanced_aux (ops : List Op) (b : ControlBlock)
    (hAR : ∀ op ∈ ops, op = Op.acquireStrong ∨ op = Op.releaseStrong)
    (hpre : ∀ k, k ≤ ops.length →
      1 ≤ b.strong + (((ops.take k).count Op.acquireStrong : Int) -
            ((ops.take k).count Op.releaseStrong : Int)) ∧
      b.strong + (((ops.take k).count Op.acquireStrong : Int) -
            ((ops.take k).count Op.releaseStrong : Int)) ≤ INT_MAX) :
    run b ops =
      { b with strong := b.strong +
          ((ops.count Op.acquireStrong : Int) - (ops.count Op.releaseStrong : Int)) } := by
  induction ops generalizing b with
  | nil =>
    rw [run_nil]
    show b = { b with strong := b.strong + (((0 : Nat) : Int) - ((0 : Nat) : Int)) }
    norm_num
  | cons op rest ih =>
    have hbounds0 := hpre 0 (by omega)
    simp only [List.take_zero, List.count_nil, INT_MAX] at hbounds0
    have hbounds1 := hpre 1 (by simp)
    rcases hAR op (List.mem_cons_self op rest) with hop | hop
    · subst hop
      simp only [List.take_succ_cons, List.take_zero, List.count_cons_self,
        List.count_nil, List.count_cons_of_ne (by decide : Op.releaseStrong ≠ Op.acquireStrong),
        INT_MAX] at hbounds1
      have hw : wrap32 (b.strong + 1) = b.strong + 1 :=
        wrap32_eq_self (by simp only [INT_MIN]; omega) (by simp only [INT_MAX]; omega)
      rw [run_cons, show applyOp Op.acquireStrong b = AcquireStrong b from rfl]
      have hrec := ih (AcquireStrong b) (fun o ho => hAR o (List.mem_cons_of_mem _ ho)) ?_
      · rw [hrec]
        show ({ b with strong := wrap32 (b.strong + 1) +
            ((rest.count Op.acquireStrong : Int) - (rest.count Op.releaseStrong : Int)) } :
              ControlBlock) = _
        rw [hw, List.count_cons_self,
          List.count_cons_of_ne (by decide : Op.releaseStrong ≠ Op.acquireStrong)]
        congr 1
        push_cast
        ring_nf
      · intro k hk
        have hkk := hpre (k + 1) (by simpa using Nat.succ_le_succ hk)
        simp only [List.take_succ_cons, List.count_cons_self,
          List.count_cons_of_ne (by decide : Op.releaseStrong ≠ Op.acquireStrong)] at hkk
        show 1 ≤ wrap32 (b.strong + 1) + _ ∧ wrap32 (b.strong + 1) + _ ≤ INT_MAX
        rw [hw]
        constructor
        · have := hkk.1; push_cast at this ⊢; omega
        · have := hkk.2; simp only [INT_MAX] at this ⊢; push_cast at this ⊢; omega
    · subst hop
      simp only [List.take_succ_cons, List.take_zero, List.count_cons_self,
        List.count_nil, List.count_cons_of_ne (by decide : Op.acquireStrong ≠ Op.releaseStrong),
        INT_MAX] at hbounds1
      have hw : wrap32 (b.strong - 1) = b.strong - 1 :=
        wrap32_eq_self (by simp only [INT_MIN]; omega) (by simp only [INT_MAX]; omega)
      have hnz : wrap32 (b.strong - 1) ≠ 0 := by rw [hw]; omega
      rw [run_cons]
      have happ : applyOp Op.releaseStrong b =
          { b with strong := wrap32 (b.strong - 1) } := by
        show ReleaseStrong b = _
        rw [ReleaseStrong, if_neg hnz]
      rw [happ]
      have hb' : ({ b with strong := wrap32 (b.strong - 1) } : ControlBlock).strong =
          b.strong - 1 := hw
      have hrec := ih { b with strong := wrap32 (b.strong - 1) }
        (fun o ho => hAR o (List.mem_cons_of_mem _ ho)) ?_
      · rw [hrec]
        show ({ b with strong := wrap32 (b.strong - 1) +
            ((rest.count Op.acquireStrong : Int) - (rest.count Op.releaseStrong : Int)) } :
              ControlBlock) = _
        rw [hw, List.count_cons_self,
          List.count_cons_of_ne (by decide : Op.acquireStrong ≠ Op.releaseStrong)]
        congr 1
        push_cast
        ring_nf
      · intro k hk
        have hkk := hpre (k + 1) (by simpa using Nat.succ_le_succ hk)
        simp only [List.take_succ_cons, List.count_cons_self,
          List.count_cons_of_ne (by decide : Op.acquireStrong ≠ Op.releaseStrong)] at hkk
        rw [hb']
        constructor
        · have := hkk.1; push_cast at this ⊢; omega
        · have := hkk.2; simp only [INT_MAX] at this ⊢; push_cast at this ⊢; omega

/-- C4 (amended): on a fresh control block, performing any interleaving of
`AcquireStrong`-then-`ReleaseStrong` pairs (each `AcquireStrong` matched by
one later `ReleaseStrong`, so no prefix holds more releases than acquires
and the totals are equal) leaves `strong_count = 1` after all pairs
complete, and the managed value is still alive (its teardown has not run)
— provided the number of unmatched `AcquireStrong` calls outstanding at
any point stays at most `INT_MAX - 1`, so the 32-bit counter does not
overflow. -/
theorem c4_balanced_pairs (ops : List Op)
    (hAR : ops.all (fun op => op == Op.acquireStrong || op == Op.releaseStrong) = true)
    (hbal : ∀ k, k ≤ ops.length →
      ((ops.take k).count Op.releaseStrong : Int) ≤ ((ops.take k).count Op.acquireStrong : Int) ∧
      ((ops.take k).count Op.acquireStrong : Int) - ((ops.take k).count Op.releaseStrong : Int) ≤
        INT_MAX - 1)
    (hfin : ops.count Op.acquireStrong = ops.count Op.releaseStrong) :
    (run ControlBlock.new ops).strong = 1 ∧
    (run ControlBlock.new ops).teardowns = 0 := by
  have hAR' : ∀ op ∈ ops, op = Op.acquireStrong ∨ op = Op.releaseStrong := by
    intro op hop
    have h := List.all_eq_true.1 hAR op hop
    simpa using h
  have hrun := run_balanced_aux ops ControlBlock.new hAR' ?_
  · rw [hrun]
    constructor
    · show (1 : Int) + ((ops.count Op.acquireStrong : Int) -
        (ops.count Op.releaseStrong : Int)) = 1
      omega
    · rfl
  · intro k hk
    obtain ⟨hb1, hb2⟩ := hbal k hk
    simp only [INT_MAX] at hb2 ⊢
    constructor
    · show (1 : Int) + _ ≥ 1
      omega
    · show (1 : Int) + _ ≤ (2147483647 : Int)
      omega

/-- Witness for C4 at the concrete interleaving `AcquireStrong`,
`AcquireStrong`, `ReleaseStrong`, `ReleaseStrong` (two nested matched
pairs): the hypotheses hold, the final strong count is `1` and the value
is still alive. -/
theorem c4_balanced_pairs_witness :
    (([Op.acquireStrong, Op.acquireStrong, Op.releaseStrong, Op.releaseStrong].all
        (fun op => op == Op.acquireStrong || op == Op.releaseStrong) = true) ∧
     (∀ k, k ≤ [Op.acquireStrong, Op.acquireStrong, Op.releaseStrong,
          Op.releaseStrong].length →
        (([Op.acquireStrong, Op.acquireStrong, Op.releaseStrong,
            Op.releaseStrong].take k).count Op.releaseStrong : Int) ≤
          (([Op.acquireStrong, Op.acquireStrong, Op.releaseStrong,
              Op.releaseStrong].take k).count Op.acquireStrong : Int) ∧
        (([Op.acquireStrong, Op.acquireStrong, Op.releaseStrong,
            Op.releaseStrong].take k).count Op.acquireStrong : Int) -
          (([Op.acquireStrong, Op.acquireStrong, Op.releaseStrong,
              Op.releaseStrong].take k).count Op.releaseStrong : Int) ≤ INT_MAX - 1) ∧
     [Op.acquireStrong, Op.acquireStrong, Op.releaseStrong,
        Op.releaseStrong].count Op.acquireStrong =
       [Op.acquireStrong, Op.acquireStrong, Op.releaseStrong,
          Op.releaseStrong].count Op.releaseStrong) ∧
    ((run ControlBlock.new [Op.acquireStrong, Op.acquireStrong, Op.releaseStrong,
        Op.releaseStrong]).strong = 1 ∧
     (run ControlBlock.new [Op.acquireStrong, Op.acquireStrong, Op.releaseStrong,
        Op.releaseStrong]).teardowns = 0) :=
  ⟨⟨by decide, by decide, by decide⟩,
    c4_balanced_pairs
      [Op.acquireStrong, Op.acquireStrong, Op.releaseStrong, Op.releaseStrong]
      (by decide) (by decide) (by decide)⟩

/-- C4 counterexample: the claim as stated holds for any number of matched
pairs, but with `2^32` matched acquire-then-release pairs (all acquires
first — a legal interleaving of pairs) the 32-bit counter overflows and
wraps: after the `2^32` acquires the counter is back at `1`, so the first
release's post-decrement value is `0` and the managed value's teardown
runs, although every acquire is matched (the prefix release count never
exceeds the acquire count and the totals are equal).  The final strong
count is `1`, but the value is not alive. -/
theorem count_acq_replicate_acq (n : Nat) :
    (List.replicate n Op.acquireStrong).count Op.acquireStrong = n := by
  rw [List.count_replicate, if_pos (by decide)]

theorem count_rel_replicate_acq (n : Nat) :
    (List.replicate n Op.acquireStrong).count Op.releaseStrong = 0 := by
  rw [List.count_replicate, if_neg (by decide)]

theorem count_acq_replicate_rel (n : Nat) :
    (List.replicate n Op.releaseStrong).count Op.acquireStrong = 0 := by
  rw [List.count_replicate, if_neg (by decide)]

theorem count_rel_replicate_rel (n : Nat) :
    (List.replicate n Op.releaseStrong).count Op.releaseStrong = n := by
  rw [List.count_replicate, if_pos (by decide)]

theorem c4_counterexample :
    (bigOps.all (fun op => op == Op.acquireStrong || op == Op.releaseStrong) = true) ∧
    (∀ k, k ≤ bigOps.length →
      ((bigOps.take k).count Op.releaseStrong : Int) ≤
        ((bigOps.take k).count Op.acquireStrong : Int)) ∧
    bigOps.count Op.acquireStrong = bigOps.count Op.releaseStrong ∧
    1 ≤ (run ControlBlock.new bigOps).teardowns := by
  refine ⟨?_, ?_, ?_, ?_⟩
  · rw [List.all_eq_true]
    intro op hop
    rcases List.mem_append.1 hop with h | h
    · rw [List.eq_of_mem_replicate h]
      decide
    · rw [List.eq_of_mem_replicate h]
      decide
  · intro k hk
    simp only [bigOps, List.length_append, List.length_replicate] at hk
    simp only [bigOps, List.take_append_eq_append_take, List.take_replicate,
      List.count_append, List.length_replicate,
      count_acq_replicate_acq, count_rel_replicate_acq,
      count_acq_replicate_rel, count_rel_replicate_rel]
    push_cast
    omega
  · simp only [bigOps, List.count_append,
      count_acq_replicate_acq, count_rel_replicate_acq,
      count_acq_replicate_rel, count_rel_replicate_rel]
  · have hacq : run ControlBlock.new (List.replicate 4294967296 Op.acquireStrong) =
        (⟨1, 0, 0⟩ : ControlBlock) := by
      rw [run_replicate_acquire 4294967296 ControlBlock.new (by decide)]
      decide
    have hsplit : run ControlBlock.new bigOps =
        run (⟨1, 0, 0⟩ : ControlBlock) (List.replicate 4294967296 Op.releaseStrong) := by
      rw [bigOps, run_append, hacq]
    rw [hsplit, show (4294967296 : Nat) = 4294967295 + 1 from rfl,
      List.replicate_succ, run_cons,
      show applyOp Op.releaseStrong (⟨1, 0, 0⟩ : ControlBlock) =
        (⟨0, 0, 1⟩ : ControlBlock) by decide]
    exact teardowns_le_run (⟨0, 0, 1⟩ : ControlBlock)
      (List.replicate 4294967295 Op.releaseStrong)

end AssistTool
